import Mathlib

/-!
Shallow embedding of the `rust-gol` repository (`src/gol.rs`) and proofs about
its specification.

Modelling conventions:
* Rust `isize` values are embedded as `Int`; `usize` values as `Nat`.  The
  checked / saturating arithmetic of the source is made explicit against
  `isizeMax` (2^63 - 1) and `usizeMax` (2^64 - 1).
* A Rust panic (out-of-range slice rotation, out-of-range `Vec` indexing,
  `Option::expect` on `None`, `splice` with an out-of-range bound) is embedded
  as `Option.none`: fallible operations return `Option`.
* `Vec<Vec<Cell>>` is embedded as `List (List Cell)`; the column-major layout
  of the source (outer index = local x, inner index = local y) is kept.
-/

set_option maxRecDepth 4000

namespace RustGol

/-- Cell enum of `gol.rs`: each cell is either alive or dead; `Dead` is the
default. -/
inductive Cell where
  | Dead
  | Alive
deriving DecidableEq, Repr

/-- Largest value of Rust `isize` (64-bit). -/
def isizeMax : Int := 2 ^ 63 - 1

/-- Largest value of Rust `usize` (64-bit). -/
def usizeMax : Nat := 2 ^ 64 - 1

/-- Rust `isize::checked_add_unsigned`: `none` exactly when the sum would
overflow `isize`. -/
def checkedAddUnsigned (a : Int) (b : Nat) : Option Int :=
  if a + (b : Int) ≤ isizeMax then some (a + (b : Int)) else none

/-- Rust `isize::saturating_add_unsigned`. -/
def satAddUnsigned (a : Int) (b : Nat) : Int :=
  min (a + (b : Int)) isizeMax

/-- Rust `usize::saturating_add_signed`: clamps at `0` below and at
`usizeMax` above. -/
def satAddSigned (n : Nat) (a : Int) : Nat :=
  min (((n : Int) + a).toNat) usizeMax

/-- Rust `Vec::resize(n, filler)`: truncate to `n` elements or extend with
copies of `filler`. -/
def vecResize (l : List α) (n : Nat) (filler : α) : List α :=
  l.take n ++ List.replicate (n - l.length) filler

/-- Rust `slice::rotate_left(n)`; panics (`none`) when `n` exceeds the
length. -/
def rotLeft (l : List α) (n : Nat) : Option (List α) :=
  if n ≤ l.length then some (l.drop n ++ l.take n) else none

/-- Rust `slice::rotate_right(n)`; panics (`none`) when `n` exceeds the
length. -/
def rotRight (l : List α) (n : Nat) : Option (List α) :=
  if n ≤ l.length then some (l.drop (l.length - n) ++ l.take (l.length - n)) else none

/-- In-place update of element `i` of a list (`v[i] = f v[i]`); out-of-range
indices leave the list unchanged. -/
def modifyAt (l : List α) (i : Nat) (f : α → α) : List α :=
  match l, i with
  | [], _ => []
  | a :: rest, 0 => f a :: rest
  | a :: rest, i + 1 => a :: modifyAt rest i f

/-- The list of `Int` values in `[a, b)`, in increasing order (a Rust
`for x in a..b` range). -/
def intRange (a b : Int) : List Int :=
  (List.range (b - a).toNat).map (fun k => a + (k : Int))

/-- Edges of a region (`Edge` in `gol.rs`). -/
inductive Edge where
  | X
  | Y
  | NegX
  | NegY

/-- The `Region` struct of `gol.rs`: a rectangular window of the plane with
its most-negative corner at `(x, y)`, covering `[x, x+width) × [y, y+height)`,
backed by a column-major buffer. -/
structure Region where
  x : Int
  y : Int
  width : Nat
  height : Nat
  state : List (List Cell)
deriving DecidableEq, Repr

namespace Region

/-- `Region::new`: an all-`Dead` region. -/
def new (x y : Int) (width height : Nat) : Region :=
  { x := x, y := y, width := width, height := height,
    state := List.replicate width (List.replicate height Cell.Dead) }

/-- `Region::pos_in_bounds`: bounds check with overflow-checked corner
addition, following the early-return chain of the source. -/
def pos_in_bounds (r : Region) (x y : Int) : Bool :=
  if x < r.x then false
  else if y < r.y then false
  else
    match checkedAddUnsigned r.x r.width with
    | none => false
    | some num =>
      if num ≤ x then false
      else
        match checkedAddUnsigned r.y r.height with
        | none => false
        | some num2 =>
          if num2 ≤ y then false
          else true

/-- `Region::pos_to_local`: world coordinates to buffer indices. -/
def pos_to_local (r : Region) (x y : Int) : Option (Nat × Nat) :=
  if r.pos_in_bounds x y then some ((x - r.x).toNat, (y - r.y).toNat) else none

/-- `Region::get_cell`; `none` both outside the region and (modelling the
panic) when the buffer is shorter than the declared size. -/
def get_cell (r : Region) (x y : Int) : Option Cell :=
  match r.pos_to_local x y with
  | none => none
  | some (lx, ly) => (r.state[lx]?).bind (fun col => col[ly]?)

/-- `Region::set_cell`: silently ignores out-of-bounds coordinates. -/
def set_cell (r : Region) (x y : Int) (c : Cell) : Region :=
  if !r.pos_in_bounds x y then r
  else
    match r.pos_to_local x y with
    | none => r
    | some (lx, ly) =>
      { r with state := modifyAt r.state lx (fun col => col.set ly c) }

/-- `Region::contains_region_corners`: does any corner of `other` lie in
`self`? -/
def contains_region_corners (r other : Region) : Bool :=
  let finalX := satAddUnsigned other.x other.width - 1
  let finalY := satAddUnsigned other.y other.height - 1
  let corners := [(other.x, other.y), (other.x, finalY), (finalX, other.y), (finalX, finalY)]
  corners.any (fun p => r.pos_in_bounds p.1 p.2)

/-- `Region::is_overlapping`: corner containment checked in both
directions. -/
def is_overlapping (r other : Region) : Bool :=
  r.contains_region_corners other || other.contains_region_corners r

/-- `Region::populate_overlap`: copy `self`'s cells into `other` over the
scanned rectangle.  The source's inner loop runs `y` up to
`other.y + other.width` (not `height`), which this embedding reproduces. -/
def populate_overlap (r : Region) (other : Region) : Region :=
  if !r.is_overlapping other then other
  else
    (intRange other.x (satAddUnsigned other.x other.width)).foldl
      (fun acc x =>
        (intRange other.y (satAddUnsigned other.y other.width)).foldl
          (fun acc2 y =>
            match r.get_cell x y with
            | none => acc2
            | some s => acc2.set_cell x y s)
          acc)
      other

/-- Map a fallible operation over every element, failing if any single
application fails (a Rust `for` loop whose body can panic). -/
def mapOpt (f : α → Option β) : List α → Option (List β)
  | [] => some []
  | a :: rest =>
    match f a, mapOpt f rest with
    | some b, some bs => some (b :: bs)
    | _, _ => none

/-- `Region::adjust_size`: change the size of the region by moving one edge.
Field updates first, then the buffer update, exactly as in the source; the
`NegX`/`NegY` rotations return `none` where the Rust `rotate_left` /
`rotate_right` would panic. -/
def adjust_size (r : Region) (edge : Edge) (amount : Int) : Option Region :=
  match edge with
  | Edge.X =>
    let w := satAddSigned r.width amount
    some { r with width := w,
                  state := vecResize r.state w (List.replicate r.height Cell.Dead) }
  | Edge.Y =>
    let h := satAddSigned r.height amount
    some { r with height := h,
                  state := r.state.map (fun col => vecResize col h Cell.Dead) }
  | Edge.NegX =>
    let w := satAddSigned r.width amount
    let x := r.x - amount
    if 0 ≤ amount then
      (rotRight (vecResize r.state w [Cell.Dead]) amount.toNat).map
        (fun st => { r with width := w, x := x, state := st })
    else
      (rotLeft r.state (-amount).toNat).map
        (fun st => { r with width := w, x := x, state := vecResize st w [] })
  | Edge.NegY =>
    let h := satAddSigned r.height amount
    let y := r.y - amount
    if 0 ≤ amount then
      (mapOpt (fun col => rotRight (vecResize col h Cell.Dead) amount.toNat) r.state).map
        (fun st => { r with height := h, y := y, state := st })
    else
      (mapOpt (fun col =>
          (rotLeft col (-amount).toNat).map (fun c => vecResize c r.width Cell.Dead))
        r.state).map
        (fun st => { r with height := h, y := y, state := st })

/-- The x-axis half of `Region::move_region`: rotate the outer buffer and
clear the vacated columns; `none` models the panics of out-of-range rotation
and slicing. -/
def moveStateX (r : Region) (dx : Int) : Option (List (List Cell)) :=
  if dx < 0 then
    (rotRight r.state (-dx).toNat).bind (fun st =>
      some ((st.take (-dx).toNat).map (fun _ => List.replicate r.height Cell.Dead) ++
            st.drop (-dx).toNat))
  else
    if dx.toNat ≤ r.width then
      (rotLeft r.state dx.toNat).bind (fun st =>
        if r.width - dx.toNat ≤ st.length then
          some (st.take (r.width - dx.toNat) ++
                (st.drop (r.width - dx.toNat)).map (fun _ => List.replicate r.height Cell.Dead))
        else none)
    else none

/-- The y-axis half of `Region::move_region`, applied to one column: rotate
and splice dead cells over the vacated rows; `none` models the rotation and
splice panics. -/
def moveColY (h : Nat) (dy : Int) (col : List Cell) : Option (List Cell) :=
  if dy < 0 then
    (rotRight col (-dy).toNat).bind (fun c =>
      if (-dy).toNat ≤ c.length
      then some (List.replicate (-dy).toNat Cell.Dead ++ c.drop (-dy).toNat) else none)
  else
    if dy.toNat ≤ h then
      (rotLeft col dy.toNat).bind (fun c =>
        if h - dy.toNat ≤ c.length
        then some (c.take (h - dy.toNat) ++ List.replicate dy.toNat Cell.Dead)
        else none)
    else none

/-- `Region::move_region`: translate the region, rotating the buffer and
filling vacated cells with `Dead`. -/
def move_region (r : Region) (dx dy : Int) : Option Region :=
  (moveStateX r dx).bind (fun st1 =>
    (mapOpt (moveColY r.height dy) st1).bind (fun st2 =>
      some { r with x := r.x + dx, y := r.y + dy, state := st2 }))

end Region

/-- The `GameOfLife` struct of `gol.rs`: an ordered collection of regions. -/
structure GameOfLife where
  regions : List Region
deriving DecidableEq, Repr

namespace GameOfLife

/-- `GameOfLife::new`: the empty world. -/
def new : GameOfLife := { regions := [] }

/-- `GameOfLife::get_cell`: the first region producing a value wins; `Dead`
when no region contains the coordinate. -/
def get_cell (g : GameOfLife) (x y : Int) : Cell :=
  (g.regions.findSome? (fun r => r.get_cell x y)).getD Cell.Dead

/-- `GameOfLife::set_cell`: write into every region that contains the
coordinate (the `resize_region` hook of the source is an empty TODO and adds
nothing). -/
def set_cell (g : GameOfLife) (x y : Int) (state : Cell) : GameOfLife :=
  { regions := g.regions.map (fun r => if r.pos_in_bounds x y then r.set_cell x y state else r) }

/-- The neighbour offsets of `GameOfLife::step_cell`. -/
def neighborOffsets : List (Int × Int) :=
  [(-1, -1), (0, -1), (1, -1), (-1, 0), (1, 0), (-1, 1), (0, 1), (1, 1)]

/-- `GameOfLife::step_cell`: count the live neighbours read from `region`'s
current (partially updated) buffer, then write the new state in place.
`none` models the `.expect` panic on an out-of-bounds current cell. -/
def step_cell (region : Region) (x y : Int) : Option Region :=
  let neighbours := neighborOffsets.foldl
    (fun n off =>
      match region.get_cell (x + off.1) (y + off.2) with
      | some Cell.Alive => n + 1
      | _ => n)
    0
  match region.get_cell x y with
  | none => none
  | some current =>
    some (region.set_cell x y
      (match current, neighbours with
       | _, 3 => Cell.Alive
       | cur, 2 => cur
       | _, _ => Cell.Dead))

/-- One region's pass of `GameOfLife::step_regions`, threading the mutated
region through the cell loop. -/
def step_cells (region : Region) : List (Int × Int) → Option Region
  | [] => some region
  | (x, y) :: rest =>
    match step_cell region x y with
    | none => none
    | some region2 => step_cells region2 rest

/-- The x-major cell traversal order of `GameOfLife::step_regions`. -/
def cellsOf (r : Region) : List (Int × Int) :=
  (intRange r.x (satAddUnsigned r.x r.width)).flatMap
    (fun x => (intRange r.y (satAddUnsigned r.y r.height)).map (fun y => (x, y)))

/-- `GameOfLife::step_regions`: step every region in place. -/
def step_regions (g : GameOfLife) : Option GameOfLife :=
  (Region.mapOpt (fun r => step_cells r (cellsOf r)) g.regions).map GameOfLife.mk

/-- `GameOfLife::step`: the region split/merge passes of the source are
comments, so stepping is exactly `step_regions`. -/
def step (g : GameOfLife) : Option GameOfLife :=
  g.step_regions

/-- Reference two-buffer step, following the spec's words (§4.2 steps 1–3):
each cell's next state is computed from the pre-step snapshot `g` (Moore
neighbourhood live count via world-level lookups; exactly 3 live neighbours
gives `Alive`, exactly 2 keeps the current state, anything else gives
`Dead`), and every write lands in a fresh buffer swapped in at the end. -/
def stepTwoBuffer (g : GameOfLife) : GameOfLife :=
  ⟨g.regions.map (fun r =>
    { r with state := (List.range r.width).map (fun i =>
        (List.range r.height).map (fun j =>
          let x := r.x + (i : Int)
          let y := r.y + (j : Int)
          let neighbours := neighborOffsets.foldl
            (fun n off =>
              match g.get_cell (x + off.1) (y + off.2) with
              | Cell.Alive => n + 1
              | Cell.Dead => n)
            0
          match g.get_cell x y, neighbours with
          | _, 3 => Cell.Alive
          | cur, 2 => cur
          | _, _ => Cell.Dead)) })⟩

end GameOfLife

/-- One call of the mutating public `GameOfLife` API (`get_cell` is a pure
read and cannot change the world, so it needs no constructor here; the only
other public entry points, `set_region` and `populate_region`, are
`unimplemented!()` in the source and diverge when called, so no reachable
world passes through them). -/
inductive GLOp where
  | setCell (x y : Int) (c : Cell)
  | stepOp

/-- Run one public API call.  On the worlds reachable from `new` the `step`
call never panics (proved below), so the `getD` fallback is never taken. -/
def applyOp (g : GameOfLife) : GLOp → GameOfLife
  | GLOp.setCell x y c => g.set_cell x y c
  | GLOp.stepOp => (g.step).getD g

/-- Run a sequence of public API calls. -/
def applyOps (g : GameOfLife) (ops : List GLOp) : GameOfLife :=
  ops.foldl applyOp g

/-- Shape invariant of a region's buffer: the outer vector has `width`
entries and every column has `height` entries. -/
def Region.wf (r : Region) : Prop :=
  r.state.length = r.width ∧ ∀ col ∈ r.state, col.length = r.height

/-- The cell stored at local coordinates `(i, j)` of a buffer. -/
def cellAt (st : List (List Cell)) (i j : Nat) : Option Cell :=
  (st[i]?).bind (fun col => col[j]?)

/-- A horizontal blinker: a 5×5 region anchored at the origin whose only
live cells are (1,2), (2,2), (3,2). -/
def blinkRegion : Region :=
  (((Region.new 0 0 5 5).set_cell 1 2 Cell.Alive).set_cell 2 2 Cell.Alive).set_cell 3 2 Cell.Alive

/-- A world holding exactly the blinker region. -/
def blinkWorld : GameOfLife := ⟨[blinkRegion]⟩

/-- An all-alive 1×2 region at the origin. -/
def tallSource : Region :=
  ((Region.new 0 0 1 2).set_cell 0 0 Cell.Alive).set_cell 0 1 Cell.Alive

/-- An all-dead 1×2 region at the origin. -/
def tallDest : Region := Region.new 0 0 1 2

/-- `pos_in_bounds` in arithmetic form: containment in the half-open
rectangle together with both overflow guards. -/
theorem pos_in_bounds_iff (r : Region) (wx wy : Int) :
    r.pos_in_bounds wx wy = true ↔
      (r.x ≤ wx ∧ wx < r.x + (r.width : Int) ∧ r.y ≤ wy ∧ wy < r.y + (r.height : Int) ∧
       r.x + (r.width : Int) ≤ isizeMax ∧ r.y + (r.height : Int) ≤ isizeMax) := by
  simp only [Region.pos_in_bounds, checkedAddUnsigned]
  split_ifs <;> simp_all

/-- C1: the claim that a write made during `step` is never visible to the
neighbour count of another cell in the same step — equivalently, that `step`
agrees with a two-buffer reference step — fails on the code: on the blinker
world the in-place `step` leaves cell (2,1) `Dead`, while the two-buffer
reference step makes it `Alive`. -/
theorem c1_step_is_not_two_buffer :
    (blinkWorld.step).map (fun w => w.get_cell 2 1) = some Cell.Dead ∧
    (blinkWorld.stepTwoBuffer).get_cell 2 1 = Cell.Alive :=
  ⟨rfl, rfl⟩

/-- C2: the buffer-shape invariant is not restored by every mutating
operation: growing the negative-x edge of a 2×3 region by 1 inserts a column
of length 1 (the source's filler is the one-element `vec![Cell::Dead]`), and
shrinking the negative-y edge of a 4×3 region by 1 resizes every column to
the region's *width* 4 instead of its new height 2. -/
theorem c2_shape_invariant_broken :
    ((Region.new 0 0 2 3).adjust_size Edge.NegX 1).map
        (fun r => (r.height, r.state.map List.length)) = some (3, [1, 3, 3]) ∧
    ((Region.new 0 0 4 3).adjust_size Edge.NegY (-1)).map
        (fun r => (r.height, r.state.map List.length)) = some (2, [4, 4, 4, 4]) :=
  ⟨rfl, rfl⟩

/-- C3: writing a cell outside every region is a caller-visible no-op: on
the empty world `set_cell (0,0) Alive` creates no region and a following
`get_cell (0,0)` still reads `Dead`. -/
theorem c3_set_cell_noop_outside_regions :
    (GameOfLife.new.set_cell 0 0 Cell.Alive).regions = [] ∧
    (GameOfLife.new.set_cell 0 0 Cell.Alive).get_cell 0 0 = Cell.Dead :=
  ⟨rfl, rfl⟩

/-- C5: `populate_overlap` does not copy every cell of the intersection:
with a 1×2 all-alive source and a coincident 1×2 dead destination, the cell
(0,1) lies in both regions and is alive in the source, yet stays `Dead` in
the destination, because the source's inner loop bounds `y` by the
destination's *width*. -/
theorem c5_populate_overlap_misses_rows :
    tallSource.pos_in_bounds 0 1 = true ∧
    tallDest.pos_in_bounds 0 1 = true ∧
    tallSource.get_cell 0 1 = some Cell.Alive ∧
    (tallSource.populate_overlap tallDest).get_cell 0 1 = some Cell.Dead :=
  ⟨rfl, rfl, rfl, rfl⟩

/-- C6: growing the negative-x edge does not fill the newly covered columns
with `Dead`: on a 1×2 region, `adjust_size NegX 1` shifts the anchor and
width correctly but the new column is the one-element `vec![Cell::Dead]`, so
the newly covered cell (-1, 1) has no value at all (the Rust code would
panic reading it) instead of `Dead`. -/
theorem c6_negx_grow_missing_dead_fill :
    ((Region.new 0 0 1 2).adjust_size Edge.NegX 1).map
        (fun r => (r.x, r.width, r.height, r.state.map List.length, r.get_cell (-1) 1)) =
      some (-1, 2, 2, [1, 2], none) :=
  rfl

/-- C8: the blinker scenario fails on the code: starting from the horizontal
blinker (live cells (1,2), (2,2), (3,2)), one in-place `step` leaves every
cell of the would-be vertical line (2,1), (2,2), (2,3) `Dead` — the whole
pattern dies — instead of producing the vertical blinker. -/
theorem c8_blinker_dies_after_one_step :
    blinkWorld.get_cell 2 2 = Cell.Alive ∧
    (blinkWorld.step).map (fun w => [w.get_cell 2 1, w.get_cell 2 2, w.get_cell 2 3]) =
      some [Cell.Dead, Cell.Dead, Cell.Dead] :=
  ⟨rfl, rfl⟩

/-- C9: for every region and world coordinate, `pos_in_bounds` holds exactly
when `pos_to_local` returns a value, and adding the anchor back to the
returned local pair recovers the world coordinate. -/
theorem c9_to_local_agrees_and_roundtrips (r : Region) (x y : Int) :
    (r.pos_in_bounds x y = true ↔ (r.pos_to_local x y).isSome = true) ∧
    (∀ lx ly : Nat, r.pos_to_local x y = some (lx, ly) →
      r.x + (lx : Int) = x ∧ r.y + (ly : Int) = y) := by
  constructor
  · unfold Region.pos_to_local
    by_cases h : r.pos_in_bounds x y <;> simp [h]
  · intro lx ly hl
    unfold Region.pos_to_local at hl
    by_cases h : r.pos_in_bounds x y
    · rw [if_pos h] at hl
      obtain ⟨h1, -, h2, -⟩ := (pos_in_bounds_iff r x y).mp h
      simp only [Option.some.injEq, Prod.mk.injEq] at hl
      obtain ⟨hx, hy⟩ := hl
      constructor <;> omega
    · rw [if_neg h] at hl
      cases hl

/-- Witness for C9 at the region `[0,2) × [0,2)` and coordinate (1, 1). -/
theorem c9_to_local_agrees_and_roundtrips_witness :
    ((Region.new 0 0 2 2).pos_in_bounds 1 1 = true ↔
      ((Region.new 0 0 2 2).pos_to_local 1 1).isSome = true) ∧
    ((Region.new 0 0 2 2).x + ((1 : Nat) : Int) = 1 ∧
     (Region.new 0 0 2 2).y + ((1 : Nat) : Int) = 1) :=
  ⟨(c9_to_local_agrees_and_roundtrips (Region.new 0 0 2 2) 1 1).1,
   (c9_to_local_agrees_and_roundtrips (Region.new 0 0 2 2) 1 1).2 1 1 (by decide)⟩

/-- C10: when neither corner sum overflows `isize`, `pos_in_bounds` is
exactly the unbounded-integer bounds check `x ≤ wx < x+width ∧
y ≤ wy < y+height`; when a corner sum would overflow, the check evaluates to
not-contained instead of wrapping or panicking. -/
theorem c10_contains_is_overflow_safe (r : Region) (wx wy : Int) :
    (r.x + (r.width : Int) ≤ isizeMax → r.y + (r.height : Int) ≤ isizeMax →
      (r.pos_in_bounds wx wy = true ↔
        (r.x ≤ wx ∧ wx < r.x + (r.width : Int) ∧
         r.y ≤ wy ∧ wy < r.y + (r.height : Int)))) ∧
    ((isizeMax < r.x + (r.width : Int) ∨ isizeMax < r.y + (r.height : Int)) →
      r.pos_in_bounds wx wy = false) := by
  constructor
  · intro h1 h2
    rw [pos_in_bounds_iff]
    constructor
    · rintro ⟨a, b, c, d, -, -⟩; exact ⟨a, b, c, d⟩
    · rintro ⟨a, b, c, d⟩; exact ⟨a, b, c, d, h1, h2⟩
  · intro h
    cases hb : r.pos_in_bounds wx wy
    · rfl
    · obtain ⟨-, -, -, -, h5, h6⟩ := (pos_in_bounds_iff r wx wy).mp hb
      rcases h with h | h <;> omega

/-- Witness for C10: the in-range case at the unit region at the origin, and
the overflow case for a region anchored at `isizeMax` with width 1. -/
theorem c10_contains_is_overflow_safe_witness :
    ((Region.new 0 0 1 1).pos_in_bounds 0 0 = true ↔
      ((Region.new 0 0 1 1).x ≤ 0 ∧ 0 < (Region.new 0 0 1 1).x + ((Region.new 0 0 1 1).width : Int) ∧
       (Region.new 0 0 1 1).y ≤ 0 ∧ 0 < (Region.new 0 0 1 1).y + ((Region.new 0 0 1 1).height : Int))) ∧
    (Region.mk isizeMax 0 1 1 []).pos_in_bounds 0 0 = false :=
  ⟨(c10_contains_is_overflow_safe (Region.new 0 0 1 1) 0 0).1 (by decide) (by decide),
   (c10_contains_is_overflow_safe (Region.mk isizeMax 0 1 1 []) 0 0).2
     (Or.inl (by norm_num [isizeMax]))⟩

/-- Every public API call keeps the region collection empty. -/
theorem applyOps_regions_nil (ops : List GLOp) (g : GameOfLife) (h : g.regions = []) :
    (applyOps g ops).regions = [] := by
  induction ops generalizing g with
  | nil => exact h
  | cons op rest ih =>
    apply ih
    cases op with
    | setCell x y c => simp [applyOp, GameOfLife.set_cell, h]
    | stepOp =>
      simp [applyOp, GameOfLife.step, GameOfLife.step_regions, Region.mapOpt, h]

/-- C4: every world reachable through the public API (`new` followed by any
sequence of `set_cell` and `step` calls; `get_cell` is a pure read) has an
empty region collection, `get_cell` reads `Dead` everywhere, `set_cell`
returns the world unchanged, and `step` succeeds and returns the world
unchanged. -/
theorem c4_reachable_worlds_are_empty (ops : List GLOp) :
    (applyOps GameOfLife.new ops).regions = [] ∧
    (∀ x y : Int, (applyOps GameOfLife.new ops).get_cell x y = Cell.Dead) ∧
    (∀ (x y : Int) (c : Cell),
      (applyOps GameOfLife.new ops).set_cell x y c = applyOps GameOfLife.new ops) ∧
    (applyOps GameOfLife.new ops).step = some (applyOps GameOfLife.new ops) := by
  have h := applyOps_regions_nil ops GameOfLife.new rfl
  rcases hg : applyOps GameOfLife.new ops with ⟨regs⟩
  rw [hg] at h
  subst h
  exact ⟨rfl, fun x y => rfl, fun x y c => rfl, rfl⟩

/-- Witness for C4 at the concrete API sequence `set_cell (0,0) Alive`
followed by `step`. -/
theorem c4_reachable_worlds_are_empty_witness :
    (applyOps GameOfLife.new [GLOp.setCell 0 0 Cell.Alive, GLOp.stepOp]).regions = [] ∧
    (∀ x y : Int,
      (applyOps GameOfLife.new [GLOp.setCell 0 0 Cell.Alive, GLOp.stepOp]).get_cell x y =
        Cell.Dead) ∧
    (∀ (x y : Int) (c : Cell),
      (applyOps GameOfLife.new [GLOp.setCell 0 0 Cell.Alive, GLOp.stepOp]).set_cell x y c =
        applyOps GameOfLife.new [GLOp.setCell 0 0 Cell.Alive, GLOp.stepOp]) ∧
    (applyOps GameOfLife.new [GLOp.setCell 0 0 Cell.Alive, GLOp.stepOp]).step =
      some (applyOps GameOfLife.new [GLOp.setCell 0 0 Cell.Alive, GLOp.stepOp]) :=
  c4_reachable_worlds_are_empty [GLOp.setCell 0 0 Cell.Alive, GLOp.stepOp]

/-- `mapOpt` over a list on which `f` always succeeds is the plain map. -/
theorem mapOpt_eq_some_map (f : α → Option β) (g : α → β) :
    ∀ l : List α, (∀ a ∈ l, f a = some (g a)) → Region.mapOpt f l = some (l.map g)
  | [], _ => rfl
  | a :: rest, H => by
    have h1 : f a = some (g a) := H a (List.mem_cons_self a rest)
    have h2 : Region.mapOpt f rest = some (rest.map g) :=
      mapOpt_eq_some_map f g rest (fun b hb => H b (List.mem_cons_of_mem a hb))
    simp only [Region.mapOpt, h1, h2, List.map_cons]

/-- The y-half of `move_region` on a column of the declared height and a
displacement bounded by the height: it succeeds, keeps the length, and
shifts every row by `dy`, reading `Dead` outside the old window. -/
theorem moveColY_char (h : Nat) (dy : Int) (col : List Cell)
    (hc : col.length = h) (hdy : dy.natAbs ≤ h) :
    ∃ col2, Region.moveColY h dy col = some col2 ∧ col2.length = h ∧
      ∀ j : Nat, j < h →
        col2[j]? =
          if 0 ≤ (j : Int) + dy ∧ (j : Int) + dy < (h : Int)
          then col[((j : Int) + dy).toNat]?
          else some Cell.Dead := by
  subst hc
  by_cases hneg : dy < 0
  · refine ⟨List.replicate (-dy).toNat Cell.Dead ++ col.take (col.length - (-dy).toNat),
      ?_, ?_, ?_⟩
    · have hrot : rotRight col (-dy).toNat =
          some (col.drop (col.length - (-dy).toNat) ++ col.take (col.length - (-dy).toNat)) := by
        unfold rotRight
        rw [if_pos (by omega)]
      unfold Region.moveColY
      rw [if_pos hneg, hrot, Option.some_bind, if_pos (by simp; omega)]
      have hdl : (col.drop (col.length - (-dy).toNat)).length = (-dy).toNat := by
        simp; omega
      rw [List.drop_left' hdl]
    · simp; omega
    · intro j hj
      by_cases hcase : 0 ≤ (j : Int) + dy ∧ (j : Int) + dy < (col.length : Int)
      · rw [if_pos hcase]
        have hjn : (List.replicate (-dy).toNat Cell.Dead).length ≤ j := by simp; omega
        rw [List.getElem?_append_right hjn]
        have hlt : j - (List.replicate (-dy).toNat Cell.Dead).length <
            col.length - (-dy).toNat := by simp; omega
        rw [List.getElem?_take_of_lt hlt]
        have he : ((j : Int) + dy).toNat = j - (List.replicate (-dy).toNat Cell.Dead).length := by
          simp; omega
        rw [he]
      · rw [if_neg hcase]
        have hjn : j < (List.replicate (-dy).toNat Cell.Dead).length := by simp; omega
        have hjr : j < (-dy).toNat := by simpa using hjn
        rw [List.getElem?_append_left hjn, List.getElem?_replicate, if_pos hjr]
  · refine ⟨col.drop dy.toNat ++ List.replicate dy.toNat Cell.Dead, ?_, ?_, ?_⟩
    · have hrot : rotLeft col dy.toNat = some (col.drop dy.toNat ++ col.take dy.toNat) := by
        unfold rotLeft
        rw [if_pos (by omega)]
      unfold Region.moveColY
      rw [if_neg hneg, if_pos (by omega : dy.toNat ≤ col.length), hrot, Option.some_bind,
          if_pos (by simp)]
      have hdl : (col.drop dy.toNat).length = col.length - dy.toNat := by simp
      rw [List.take_left' hdl]
    · simp; omega
    · intro j hj
      by_cases hcase : 0 ≤ (j : Int) + dy ∧ (j : Int) + dy < (col.length : Int)
      · rw [if_pos hcase]
        have hjn : j < (col.drop dy.toNat).length := by simp; omega
        rw [List.getElem?_append_left hjn, List.getElem?_drop]
        have he : ((j : Int) + dy).toNat = dy.toNat + j := by omega
        rw [he]
      · rw [if_neg hcase]
        have hjn : (col.drop dy.toNat).length ≤ j := by simp; omega
        have hjr : j - (col.drop dy.toNat).length < dy.toNat := by simp; omega
        rw [List.getElem?_append_right hjn, List.getElem?_replicate, if_pos hjr]

/-- The x-half of `move_region` on a buffer of the declared width and a
displacement bounded by the width: it succeeds, keeps the outer length,
shifts every column by `dx`, and fills vacated slots with all-dead columns
(every produced column is an old column or an all-dead column). -/
theorem moveStateX_char (r : Region) (dx : Int)
    (hwf : r.state.length = r.width) (hdx : dx.natAbs ≤ r.width) :
    ∃ st1, Region.moveStateX r dx = some st1 ∧ st1.length = r.width ∧
      (∀ col ∈ st1, col ∈ r.state ∨ col = List.replicate r.height Cell.Dead) ∧
      ∀ i : Nat, i < r.width →
        st1[i]? =
          if 0 ≤ (i : Int) + dx ∧ (i : Int) + dx < (r.width : Int)
          then r.state[((i : Int) + dx).toNat]?
          else some (List.replicate r.height Cell.Dead) := by
  by_cases hneg : dx < 0
  · refine ⟨(r.state.drop (r.state.length - (-dx).toNat)).map
        (fun _ => List.replicate r.height Cell.Dead) ++
        r.state.take (r.state.length - (-dx).toNat), ?_, ?_, ?_, ?_⟩
    · have hrot : rotRight r.state (-dx).toNat =
          some (r.state.drop (r.state.length - (-dx).toNat) ++
                r.state.take (r.state.length - (-dx).toNat)) := by
        unfold rotRight
        rw [if_pos (by omega)]
      unfold Region.moveStateX
      rw [if_pos hneg, hrot, Option.some_bind]
      have htk : (r.state.drop (r.state.length - (-dx).toNat) ++
          r.state.take (r.state.length - (-dx).toNat)).take (-dx).toNat =
          r.state.drop (r.state.length - (-dx).toNat) :=
        List.take_left' (by simp; omega)
      have hdr : (r.state.drop (r.state.length - (-dx).toNat) ++
          r.state.take (r.state.length - (-dx).toNat)).drop (-dx).toNat =
          r.state.take (r.state.length - (-dx).toNat) :=
        List.drop_left' (by simp; omega)
      rw [htk, hdr]
    · simp; omega
    · intro col hcol
      rcases List.mem_append.mp hcol with h | h
      · obtain ⟨c0, -, rfl⟩ := List.mem_map.mp h
        right; rfl
      · left; exact List.mem_of_mem_take h
    · intro i hi
      by_cases hcase : 0 ≤ (i : Int) + dx ∧ (i : Int) + dx < (r.width : Int)
      · rw [if_pos hcase]
        have hin : ((r.state.drop (r.state.length - (-dx).toNat)).map
            (fun _ => List.replicate r.height Cell.Dead)).length ≤ i := by simp; omega
        rw [List.getElem?_append_right hin]
        have hlt : i - ((r.state.drop (r.state.length - (-dx).toNat)).map
            (fun _ => List.replicate r.height Cell.Dead)).length <
            r.state.length - (-dx).toNat := by simp; omega
        rw [List.getElem?_take_of_lt hlt]
        have he : ((i : Int) + dx).toNat =
            i - ((r.state.drop (r.state.length - (-dx).toNat)).map
              (fun _ => List.replicate r.height Cell.Dead)).length := by
          simp; omega
        rw [he]
      · rw [if_neg hcase]
        have hin : i < ((r.state.drop (r.state.length - (-dx).toNat)).map
            (fun _ => List.replicate r.height Cell.Dead)).length := by simp; omega
        rw [List.getElem?_append_left hin, List.getElem?_map]
        have hsome : i < (r.state.drop (r.state.length - (-dx).toNat)).length := by
          simpa using hin
        rw [List.getElem?_eq_getElem hsome, Option.map_some']
  · refine ⟨r.state.drop dx.toNat ++
        (r.state.take dx.toNat).map (fun _ => List.replicate r.height Cell.Dead),
      ?_, ?_, ?_, ?_⟩
    · have hrot : rotLeft r.state dx.toNat =
          some (r.state.drop dx.toNat ++ r.state.take dx.toNat) := by
        unfold rotLeft
        rw [if_pos (by omega)]
      unfold Region.moveStateX
      rw [if_neg hneg, if_pos (by omega : dx.toNat ≤ r.width), hrot, Option.some_bind,
          if_pos (by simp; omega)]
      have htk : (r.state.drop dx.toNat ++ r.state.take dx.toNat).take
          (r.width - dx.toNat) = r.state.drop dx.toNat :=
        List.take_left' (by simp; omega)
      have hdr : (r.state.drop dx.toNat ++ r.state.take dx.toNat).drop
          (r.width - dx.toNat) = r.state.take dx.toNat :=
        List.drop_left' (by simp; omega)
      rw [htk, hdr]
    · simp; omega
    · intro col hcol
      rcases List.mem_append.mp hcol with h | h
      · left; exact List.mem_of_mem_drop h
      · obtain ⟨c0, -, rfl⟩ := List.mem_map.mp h
        right; rfl
    · intro i hi
      by_cases hcase : 0 ≤ (i : Int) + dx ∧ (i : Int) + dx < (r.width : Int)
      · rw [if_pos hcase]
        have hin : i < (r.state.drop dx.toNat).length := by simp; omega
        rw [List.getElem?_append_left hin, List.getElem?_drop]
        have he : ((i : Int) + dx).toNat = dx.toNat + i := by omega
        rw [he]
      · rw [if_neg hcase]
        have hin : (r.state.drop dx.toNat).length ≤ i := by simp; omega
        rw [List.getElem?_append_right hin, List.getElem?_map]
        have hsome : i - (r.state.drop dx.toNat).length <
            (r.state.take dx.toNat).length := by simp; omega
        rw [List.getElem?_eq_getElem hsome, Option.map_some']

/-- Full characterization of `move_region` on a well-formed region with
displacements bounded by the region size: it succeeds, translates the
anchor, keeps the dimensions and the shape invariant, and shifts every cell
by `(dx, dy)`, filling vacated cells with `Dead`. -/
theorem move_region_char (r : Region) (dx dy : Int)
    (hwf : r.wf) (hdx : dx.natAbs ≤ r.width) (hdy : dy.natAbs ≤ r.height) :
    ∃ st2, r.move_region dx dy =
        some ⟨r.x + dx, r.y + dy, r.width, r.height, st2⟩ ∧
      st2.length = r.width ∧ (∀ col ∈ st2, col.length = r.height) ∧
      ∀ i j : Nat, i < r.width → j < r.height →
        cellAt st2 i j =
          if 0 ≤ (i : Int) + dx ∧ (i : Int) + dx < (r.width : Int) ∧
             0 ≤ (j : Int) + dy ∧ (j : Int) + dy < (r.height : Int)
          then cellAt r.state (((i : Int) + dx).toNat) (((j : Int) + dy).toNat)
          else some Cell.Dead := by
  obtain ⟨st1, hst1, hlen1, hmem1, hidx1⟩ := moveStateX_char r dx hwf.1 hdx
  have hcols : ∀ col ∈ st1, col.length = r.height := by
    intro col hcol
    rcases hmem1 col hcol with h | h
    · exact hwf.2 col h
    · simp [h]
  have hmap : Region.mapOpt (Region.moveColY r.height dy) st1 =
      some (st1.map (fun col => (Region.moveColY r.height dy col).getD [])) := by
    apply mapOpt_eq_some_map
    intro col hcol
    obtain ⟨col2, hcol2, -, -⟩ := moveColY_char r.height dy col (hcols col hcol) hdy
    rw [hcol2]
    simp [hcol2]
  refine ⟨st1.map (fun col => (Region.moveColY r.height dy col).getD []), ?_, ?_, ?_, ?_⟩
  · unfold Region.move_region
    rw [hst1, Option.some_bind, hmap, Option.some_bind]
  · simp [hlen1]
  · intro col hcol
    obtain ⟨col0, hcol0, rfl⟩ := List.mem_map.mp hcol
    obtain ⟨col2, hcol2, hl2, -⟩ := moveColY_char r.height dy col0 (hcols col0 hcol0) hdy
    simp [hcol2, hl2]
  · intro i j hi hj
    have hi1 : i < st1.length := by omega
    obtain ⟨coli, hcoli⟩ : ∃ c, st1[i]? = some c :=
      ⟨st1[i], List.getElem?_eq_getElem hi1⟩
    have hmemi : coli ∈ st1 := List.mem_iff_getElem?.mpr ⟨i, hcoli⟩
    obtain ⟨col2, hcol2, hl2, hidx2⟩ := moveColY_char r.height dy coli (hcols coli hmemi) hdy
    have hcell : cellAt (st1.map (fun col => (Region.moveColY r.height dy col).getD [])) i j =
        col2[j]? := by
      unfold cellAt
      rw [List.getElem?_map, hcoli, Option.map_some', Option.some_bind, hcol2]
      rfl
    rw [hcell, hidx2 j hj]
    have hix := hidx1 i hi
    by_cases hx : 0 ≤ (i : Int) + dx ∧ (i : Int) + dx < (r.width : Int)
    · rw [if_pos hx] at hix
      rw [hcoli] at hix
      by_cases hy : 0 ≤ (j : Int) + dy ∧ (j : Int) + dy < (r.height : Int)
      · rw [if_pos hy, if_pos ⟨hx.1, hx.2, hy.1, hy.2⟩]
        unfold cellAt
        rw [← hix, Option.some_bind]
      · rw [if_neg hy, if_neg (by tauto)]
    · rw [if_neg hx] at hix
      rw [hcoli] at hix
      have hco : coli = List.replicate r.height Cell.Dead := by
        injection hix
      by_cases hy : 0 ≤ (j : Int) + dy ∧ (j : Int) + dy < (r.height : Int)
      · rw [if_pos hy, if_neg (by tauto), hco, List.getElem?_replicate,
            if_pos (by omega : ((j : Int) + dy).toNat < r.height)]
      · rw [if_neg hy, if_neg (by tauto)]

/-- `get_cell` at a contained coordinate reads the buffer at the local
coordinates. -/
theorem get_cell_of_in_bounds (r : Region) (x y : Int) (h : r.pos_in_bounds x y = true) :
    r.get_cell x y = cellAt r.state (x - r.x).toNat (y - r.y).toNat := by
  unfold Region.get_cell Region.pos_to_local
  rw [if_pos h]
  rfl

/-- C7 (amended): for every region whose buffer matches its declared
dimensions and every displacement with `|dx| ≤ width` and `|dy| ≤ height`,
`move_region dx dy` followed by `move_region (-dx) (-dy)` succeeds and
restores the original anchor; every cell of the region that also lies in the
translated window keeps its value across the pair of calls, and every cell
vacated by the first translate reads `Dead` afterwards.  (For larger
displacements the source panics on an out-of-range rotation or slice, so no
region is returned at all — see the counterexample.) -/
theorem c7_translate_roundtrip (r : Region) (dx dy : Int)
    (hwf : r.wf) (hdx : dx.natAbs ≤ r.width) (hdy : dy.natAbs ≤ r.height) :
    ∃ r2, (r.move_region dx dy).bind (fun r1 => r1.move_region (-dx) (-dy)) = some r2 ∧
      r2.x = r.x ∧ r2.y = r.y ∧
      ∀ wx wy : Int, r.pos_in_bounds wx wy = true →
        ((r.x + dx ≤ wx ∧ wx < r.x + dx + (r.width : Int) ∧
          r.y + dy ≤ wy ∧ wy < r.y + dy + (r.height : Int)) →
            r2.get_cell wx wy = r.get_cell wx wy) ∧
        (¬(r.x + dx ≤ wx ∧ wx < r.x + dx + (r.width : Int) ∧
           r.y + dy ≤ wy ∧ wy < r.y + dy + (r.height : Int)) →
            r2.get_cell wx wy = some Cell.Dead) := by
  obtain ⟨st2, hmv1, hlen2, hcols2, hidx2⟩ := move_region_char r dx dy hwf hdx hdy
  obtain ⟨st3, hmv2, -, -, hidx3⟩ :=
    move_region_char ⟨r.x + dx, r.y + dy, r.width, r.height, st2⟩ (-dx) (-dy)
      ⟨hlen2, hcols2⟩ (by simpa using hdx) (by simpa using hdy)
  simp only [] at hmv2 hidx3
  refine ⟨⟨r.x + dx + -dx, r.y + dy + -dy, r.width, r.height, st3⟩, ?_, by ring, by ring, ?_⟩
  · rw [hmv1, Option.some_bind, hmv2]
  · intro wx wy h0
    obtain ⟨ha1, ha2, ha3, ha4, ha5, ha6⟩ := (pos_in_bounds_iff r wx wy).mp h0
    have hb2 : Region.pos_in_bounds ⟨r.x + dx + -dx, r.y + dy + -dy, r.width, r.height, st3⟩
        wx wy = true := by
      rw [pos_in_bounds_iff]
      simp only []
      refine ⟨by omega, by omega, by omega, by omega, by omega, by omega⟩
    have hget2 := get_cell_of_in_bounds
      ⟨r.x + dx + -dx, r.y + dy + -dy, r.width, r.height, st3⟩ wx wy hb2
    simp only [] at hget2
    have hget0 := get_cell_of_in_bounds r wx wy h0
    have e1 : (wx - (r.x + dx + -dx)).toNat = (wx - r.x).toNat := by omega
    have e2 : (wy - (r.y + dy + -dy)).toNat = (wy - r.y).toNat := by omega
    have hlx : (wx - r.x).toNat < r.width := by omega
    have hly : (wy - r.y).toNat < r.height := by omega
    have hlxe : (((wx - r.x).toNat : Nat) : Int) = wx - r.x := by omega
    have hlye : (((wy - r.y).toNat : Nat) : Int) = wy - r.y := by omega
    have hstep3 := hidx3 (wx - r.x).toNat (wy - r.y).toNat hlx hly
    constructor
    · intro hpost
      obtain ⟨hp1, hp2, hp3, hp4⟩ := hpost
      have hX : 0 ≤ ((wx - r.x).toNat : Int) + -dx ∧
          ((wx - r.x).toNat : Int) + -dx < (r.width : Int) ∧
          0 ≤ ((wy - r.y).toNat : Int) + -dy ∧
          ((wy - r.y).toNat : Int) + -dy < (r.height : Int) := by
        refine ⟨by omega, by omega, by omega, by omega⟩
      rw [hget2, e1, e2, hstep3, if_pos hX]
      have hlx2 : ((((wx - r.x).toNat : Int) + -dx).toNat : Nat) < r.width := by omega
      have hly2 : ((((wy - r.y).toNat : Int) + -dy).toNat : Nat) < r.height := by omega
      have hstep2 := hidx2 (((wx - r.x).toNat : Int) + -dx).toNat
        (((wy - r.y).toNat : Int) + -dy).toNat hlx2 hly2
      have hX2 : 0 ≤ (((((wx - r.x).toNat : Int) + -dx).toNat : Nat) : Int) + dx ∧
          (((((wx - r.x).toNat : Int) + -dx).toNat : Nat) : Int) + dx < (r.width : Int) ∧
          0 ≤ (((((wy - r.y).toNat : Int) + -dy).toNat : Nat) : Int) + dy ∧
          (((((wy - r.y).toNat : Int) + -dy).toNat : Nat) : Int) + dy < (r.height : Int) := by
        refine ⟨by omega, by omega, by omega, by omega⟩
      rw [hstep2, if_pos hX2]
      have e3 : ((((((wx - r.x).toNat : Int) + -dx).toNat : Nat) : Int) + dx).toNat =
          (wx - r.x).toNat := by omega
      have e4 : ((((((wy - r.y).toNat : Int) + -dy).toNat : Nat) : Int) + dy).toNat =
          (wy - r.y).toNat := by omega
      rw [e3, e4, hget0]
    · intro hpost
      have hX : ¬(0 ≤ ((wx - r.x).toNat : Int) + -dx ∧
          ((wx - r.x).toNat : Int) + -dx < (r.width : Int) ∧
          0 ≤ ((wy - r.y).toNat : Int) + -dy ∧
          ((wy - r.y).toNat : Int) + -dy < (r.height : Int)) := by
        intro hc
        exact hpost ⟨by omega, by omega, by omega, by omega⟩
      rw [hget2, e1, e2, hstep3, if_neg hX]

/-- C7 counterexample: as stated for *every* displacement the claim is
false.  On the 1×1 region at the origin, `move_region 2 0` hits the panic of
an out-of-range slice rotation (embedded as `none`), so the pair of
translations returns no region at all and in particular restores no
anchor. -/
theorem c7_translate_roundtrip_cex :
    ¬ ∃ r2, ((Region.new 0 0 1 1).move_region 2 0).bind
        (fun r1 => r1.move_region (-2) 0) = some r2 ∧ r2.x = 0 ∧ r2.y = 0 := by
  rintro ⟨r2, h, -, -⟩
  have hn : ((Region.new 0 0 1 1).move_region 2 0).bind
      (fun r1 => r1.move_region (-2) 0) = none := rfl
  rw [hn] at h
  cases h

/-- Witness for C7 at the all-alive 1×2 region and displacement (1, 1). -/
theorem c7_translate_roundtrip_witness :
    ∃ r2, (tallSource.move_region 1 1).bind (fun r1 => r1.move_region (-1) (-1)) = some r2 ∧
      r2.x = tallSource.x ∧ r2.y = tallSource.y ∧
      ∀ wx wy : Int, tallSource.pos_in_bounds wx wy = true →
        ((tallSource.x + 1 ≤ wx ∧ wx < tallSource.x + 1 + (tallSource.width : Int) ∧
          tallSource.y + 1 ≤ wy ∧ wy < tallSource.y + 1 + (tallSource.height : Int)) →
            r2.get_cell wx wy = tallSource.get_cell wx wy) ∧
        (¬(tallSource.x + 1 ≤ wx ∧ wx < tallSource.x + 1 + (tallSource.width : Int) ∧
           tallSource.y + 1 ≤ wy ∧ wy < tallSource.y + 1 + (tallSource.height : Int)) →
            r2.get_cell wx wy = some Cell.Dead) :=
  c7_translate_roundtrip tallSource 1 1 ⟨by decide, by decide⟩ (by decide) (by decide)

end RustGol

